import Mathlib

/-!
Verification of the GeneReport table-extraction pipeline
(`notebooks/Extract_all_tables_camelot.ipynb` and its checkpoint, which holds the
inline implementation of `extract_tables_from_pdf` and the batch loop).

The external extraction engine (`camelot.read_pdf`) is modelled as an arbitrary
function from the call it receives (file path, pages, flavor, line_scale) to
either a raised exception (`.error`) or a list of tables.  CSV writes are
modelled as `(path, content)` pairs accumulated in order.
-/

namespace GeneReport

/-- One extracted table; `csv` is the serialization produced by `table.to_csv`
(abstract: we never inspect table contents). -/
structure Table where
  csv : String
deriving DecidableEq, Repr

/-- The argument tuple of one `camelot.read_pdf(filepath, pages=…, flavor=…, line_scale=…)`
invocation. -/
structure EngineCall where
  filepath : String
  pages : String
  flavor : String
  line_scale : Nat
deriving DecidableEq, Repr

/-- The external extraction engine: returns tables or raises (`.error`). -/
abbrev Engine := EngineCall → Except String (List Table)

/-- A CSV file write: (path, content). -/
abbrev Write := String × String

/-- Embeds `os.path.join(dir, file)` for a plain relative filename. -/
def pathJoin (dir file : String) : String := dir ++ "/" ++ file

/-- Embeds Python `s.endswith(suffix)`. -/
def pyEndsWith (s suffix : String) : Bool := suffix.toList.isSuffixOf s.toList

/-- Index of the last occurrence of `c` in `cs`, if any. -/
def lastIdxOf (c : Char) (cs : List Char) : Option Nat :=
  match cs.reverse.findIdx? (fun x => x = c) with
  | none => none
  | some k => some (cs.length - 1 - k)

/-- Embeds `os.path.splitext(p)[0]` for a bare filename (no directory separator):
split at the last dot, except that a name whose characters before the last dot
are all dots (e.g. `".pdf"`) is not split. -/
def splitextStem (p : String) : String :=
  let cs := p.toList
  match lastIdxOf '.' cs with
  | none => p
  | some d => if (cs.take d).all (fun ch => ch = '.') then p else (cs.take d).asString

/-- Embeds Python `enumerate(xs, start=n)`. -/
def enumerateFrom (n : Nat) : List α → List (Nat × α)
  | [] => []
  | x :: xs => (n, x) :: enumerateFrom (n + 1) xs

/-- The engine call made by `extract_tables_from_pdf`:
`camelot.read_pdf(os.path.join(pdf_dir, pdf_file), pages=pages, flavor='lattice', line_scale=60)`. -/
def camelotCall (pdf_dir pdf_file pages : String) : EngineCall :=
  { filepath := pathJoin pdf_dir pdf_file, pages := pages, flavor := "lattice", line_scale := 60 }

/-- The per-table CSV writes of the save loop of `extract_tables_from_pdf`:
`for i, table in enumerate(tables, start=1): csv_file = f"{report_name}_table_camelot_{i}.csv"`,
saved under `output_folder`. -/
def perTableWrites (output_folder report_name : String) (tables : List Table) : List Write :=
  (enumerateFrom 1 tables).map (fun pr =>
    (pathJoin output_folder (report_name ++ "_table_camelot_" ++ toString pr.1 ++ ".csv"), pr.2.csv))

/-- Embeds `extract_tables_from_pdf(pdf_dir, pdf_file, output_folder, pages)` of the
checkpoint notebook (the Python default for `pages` is `"all"`; callers passing no
`pages` argument are modelled by passing `"all"` explicitly).  Returns the engine
call that was made, and either the propagated engine exception or the list of CSV
writes performed together with the has-tables flag the function returns
(`False` when `tables.n == 0`, `True` otherwise). -/
def extract_tables_from_pdf (engine : Engine) (pdf_dir pdf_file output_folder pages : String) :
    EngineCall × Except String (List Write × Bool) :=
  let call := camelotCall pdf_dir pdf_file pages
  match engine call with
  | .error e => (call, .error e)
  | .ok tables =>
    let report_name := splitextStem pdf_file
    if tables.length = 0 then
      (call, .ok ([], false))
    else
      (call, .ok (perTableWrites output_folder report_name tables, true))

/-- Accumulated observable state of a batch run: CSV writes performed, the
`no_tables_pdfs` list, and every engine call made, all in order. -/
structure BState where
  writes : List Write
  noTables : List String
  calls : List EngineCall
deriving DecidableEq, Repr

/-- The batch loop body, iterated over the directory listing:
`for pdf_file in os.listdir(pdf_dir): if pdf_file.endswith(".pdf"): …`.
An engine exception is uncaught in the source, so it stops the fold and is
returned as `some msg`; the state records everything done before the exception. -/
def runBatchAux (engine : Engine) (pdf_dir output_folder : String) :
    List String → BState → BState × Option String
  | [], s => (s, none)
  | pdf_file :: rest, s =>
    if pyEndsWith pdf_file ".pdf" then
      match extract_tables_from_pdf engine pdf_dir pdf_file output_folder "all" with
      | (call, .error e) => ({ s with calls := s.calls ++ [call] }, some e)
      | (call, .ok (ws, has_tables)) =>
        let s1 : BState :=
          { writes := s.writes ++ ws, noTables := s.noTables, calls := s.calls ++ [call] }
        let s2 : BState :=
          if has_tables then s1 else { s1 with noTables := s1.noTables ++ [pdf_file] }
        runBatchAux engine pdf_dir output_folder rest s2
    else
      runBatchAux engine pdf_dir output_folder rest s

/-- One CSV cell as written by pandas `to_csv` (QUOTE_MINIMAL): quoted, with inner
quotes doubled, only when the value contains a delimiter, quote or line break. -/
def csvCell (s : String) : String :=
  if s.toList.any (fun c => c = ',' || c = '"' || c = '\n' || c = '\r') then
    "\"" ++ (s.toList.flatMap (fun c => if c = '"' then ['"', '"'] else [c])).asString ++ "\""
  else s

/-- The content of `pdfs_with_no_tables.csv`:
`pd.DataFrame(no_tables_pdfs, columns=['PDF_Filename']).to_csv(path, index=False)` —
a `PDF_Filename` header line followed by one line per listed filename. -/
def noTablesCsv (files : List String) : String :=
  "PDF_Filename" ++ "\n" ++ String.join (files.map (fun f => csvCell f ++ "\n"))

/-- The fixed basename of the no-tables report. -/
def noTablesName : String := "pdfs_with_no_tables.csv"

/-- The state at the start of the batch cell: `no_tables_pdfs = []`, nothing
written, no engine call made yet. -/
def initState : BState := ⟨[], [], []⟩

/-- The whole batch cell: run the loop over the listing, then (only if no
exception escaped) write `pdfs_with_no_tables.csv` into the output folder. -/
def runBatch (engine : Engine) (pdf_dir output_folder : String) (listing : List String) :
    BState × Option String :=
  match runBatchAux engine pdf_dir output_folder listing initState with
  | (s, some e) => (s, some e)
  | (s, none) =>
    ({ s with
        writes := s.writes ++ [(pathJoin output_folder noTablesName, noTablesCsv s.noTables)] },
      none)

/-- Whether the engine reports zero tables for `f` under the batch's call settings. -/
def isZeroTables (engine : Engine) (pdf_dir f : String) : Bool :=
  match engine (camelotCall pdf_dir f "all") with
  | .ok [] => true
  | _ => false

/-- The documents of a listing for which the engine returns zero tables
(the specification of the rows of the no-tables report). -/
def zeroTableDocs (engine : Engine) (pdf_dir : String) (listing : List String) : List String :=
  listing.filter (fun f => pyEndsWith f ".pdf" && isZeroTables engine pdf_dir f)

/-- The per-table CSV writes one successfully processed document contributes. -/
def writesFor (engine : Engine) (pdf_dir output_folder f : String) : List Write :=
  match engine (camelotCall pdf_dir f "all") with
  | .error _ => []
  | .ok ts => if ts.length = 0 then [] else perTableWrites output_folder (splitextStem f) ts

/-- All per-table CSV writes of a completed batch over a listing. -/
def perTableAll (engine : Engine) (pdf_dir output_folder : String) (listing : List String) :
    List Write :=
  listing.flatMap (fun f => if pyEndsWith f ".pdf" then writesFor engine pdf_dir output_folder f else [])

/-- The engine calls a completed batch makes over a listing. -/
def pdfCalls (pdf_dir : String) (listing : List String) : List EngineCall :=
  (listing.filter (fun f => pyEndsWith f ".pdf")).map (fun f => camelotCall pdf_dir f "all")

section StepLemmas

variable (engine : Engine) (d o : String)

theorem runBatchAux_nil (s : BState) : runBatchAux engine d o [] s = (s, none) := rfl

theorem runBatchAux_cons_nonpdf {f : String} (hf : pyEndsWith f ".pdf" = false)
    (l : List String) (s : BState) :
    runBatchAux engine d o (f :: l) s = runBatchAux engine d o l s := by
  simp [runBatchAux, hf]

theorem runBatchAux_cons_error {f msg : String} (hf : pyEndsWith f ".pdf" = true)
    (he : engine (camelotCall d f "all") = .error msg) (l : List String) (s : BState) :
    runBatchAux engine d o (f :: l) s =
      ({ s with calls := s.calls ++ [camelotCall d f "all"] }, some msg) := by
  simp [runBatchAux, hf, extract_tables_from_pdf, he]

theorem runBatchAux_cons_zero {f : String} (hf : pyEndsWith f ".pdf" = true)
    (he : engine (camelotCall d f "all") = .ok []) (l : List String) (s : BState) :
    runBatchAux engine d o (f :: l) s =
      runBatchAux engine d o l
        { s with noTables := s.noTables ++ [f], calls := s.calls ++ [camelotCall d f "all"] } := by
  simp [runBatchAux, hf, extract_tables_from_pdf, he]

theorem runBatchAux_cons_tables {f : String} {ts : List Table}
    (hf : pyEndsWith f ".pdf" = true) (he : engine (camelotCall d f "all") = .ok ts)
    (hne : ts ≠ []) (l : List String) (s : BState) :
    runBatchAux engine d o (f :: l) s =
      runBatchAux engine d o l
        { s with writes := s.writes ++ perTableWrites o (splitextStem f) ts,
                 calls := s.calls ++ [camelotCall d f "all"] } := by
  simp [runBatchAux, hf, extract_tables_from_pdf, he, hne, List.length_eq_zero]

/-- The batch loop over `l1 ++ l2` runs `l1` first and continues into `l2`
exactly when no exception escaped while processing `l1`. -/
theorem runBatchAux_append (l1 l2 : List String) (s : BState) :
    runBatchAux engine d o (l1 ++ l2) s =
      (match runBatchAux engine d o l1 s with
        | (s1, none) => runBatchAux engine d o l2 s1
        | (s1, some m) => (s1, some m)) := by
  induction l1 generalizing s with
  | nil => simp [runBatchAux]
  | cons f l1 ih =>
    by_cases hf : pyEndsWith f ".pdf" = true
    · rcases hE : engine (camelotCall d f "all") with msg | ts
      · rw [List.cons_append, runBatchAux_cons_error engine d o hf hE,
          runBatchAux_cons_error engine d o hf hE]
      · rcases hts : ts with _ | ⟨t, ts'⟩
        · subst hts
          rw [List.cons_append, runBatchAux_cons_zero engine d o hf hE,
            runBatchAux_cons_zero engine d o hf hE, ih]
        · rw [List.cons_append,
            runBatchAux_cons_tables engine d o hf (hts ▸ hE) (by simp [hts]),
            runBatchAux_cons_tables engine d o hf (hts ▸ hE) (by simp [hts]), ih]
    · rw [List.cons_append, runBatchAux_cons_nonpdf engine d o (by simpa using hf),
        runBatchAux_cons_nonpdf engine d o (by simpa using hf), ih]

/-- Exact characterization of a completed (exception-free) batch loop. -/
theorem runBatchAux_ok_spec (l : List String) (s : BState)
    (h : (runBatchAux engine d o l s).2 = none) :
    (runBatchAux engine d o l s).1 =
      { writes := s.writes ++ perTableAll engine d o l,
        noTables := s.noTables ++ zeroTableDocs engine d l,
        calls := s.calls ++ pdfCalls d l } := by
  induction l generalizing s with
  | nil => simp [runBatchAux, perTableAll, zeroTableDocs, pdfCalls]
  | cons f l ih =>
    by_cases hf : pyEndsWith f ".pdf" = true
    · rcases hE : engine (camelotCall d f "all") with msg | ts
      · rw [runBatchAux_cons_error engine d o hf hE] at h
        simp at h
      · rcases hts : ts with _ | ⟨t, ts'⟩
        · subst hts
          rw [runBatchAux_cons_zero engine d o hf hE] at h ⊢
          rw [ih _ h]
          simp [perTableAll, zeroTableDocs, pdfCalls, hf, writesFor, hE, isZeroTables]
        · subst hts
          rw [runBatchAux_cons_tables engine d o hf hE (by simp)] at h ⊢
          rw [ih _ h]
          simp [perTableAll, zeroTableDocs, pdfCalls, hf, writesFor, hE, isZeroTables]
    · have hf' : pyEndsWith f ".pdf" = false := by simpa using hf
      rw [runBatchAux_cons_nonpdf engine d o hf'] at h ⊢
      rw [ih _ h]
      simp [perTableAll, zeroTableDocs, pdfCalls, hf']

/-- `noTables` only ever grows during the loop, even across a later exception. -/
theorem runBatchAux_noTables_mono (l : List String) (s : BState) :
    ∃ t, (runBatchAux engine d o l s).1.noTables = s.noTables ++ t := by
  induction l generalizing s with
  | nil => exact ⟨[], by simp [runBatchAux]⟩
  | cons f l ih =>
    by_cases hf : pyEndsWith f ".pdf" = true
    · rcases hE : engine (camelotCall d f "all") with msg | ts
      · rw [runBatchAux_cons_error engine d o hf hE]
        exact ⟨[], by simp⟩
      · rcases ts with _ | ⟨t, ts'⟩
        · rw [runBatchAux_cons_zero engine d o hf hE]
          obtain ⟨t2, ht⟩ := ih _
          refine ⟨f :: t2, ?_⟩
          rw [ht]
          simp
        · rw [runBatchAux_cons_tables engine d o hf hE (by simp)]
          exact ih _
    · rw [runBatchAux_cons_nonpdf engine d o (by simpa using hf)]
      exact ih _

/-- Every engine call the loop makes comes from a listing entry ending in `.pdf`,
and uses the batch's fixed settings (true even when the run ends in an exception). -/
theorem runBatchAux_calls_mem (l : List String) (s : BState) :
    ∀ c ∈ (runBatchAux engine d o l s).1.calls,
      c ∈ s.calls ∨ ∃ f, f ∈ l ∧ pyEndsWith f ".pdf" = true ∧ c = camelotCall d f "all" := by
  induction l generalizing s with
  | nil => intro c hc; exact Or.inl hc
  | cons f l ih =>
    intro c hc
    by_cases hf : pyEndsWith f ".pdf" = true
    · rcases hE : engine (camelotCall d f "all") with msg | ts
      · rw [runBatchAux_cons_error engine d o hf hE] at hc
        simp at hc
        rcases hc with hc | hc
        · exact Or.inl hc
        · exact Or.inr ⟨f, by simp [hf, hc]⟩
      · have step : ∀ s' : BState, s'.calls = s.calls ++ [camelotCall d f "all"] →
            c ∈ (runBatchAux engine d o l s').1.calls →
            c ∈ s.calls ∨ ∃ g, g ∈ f :: l ∧ pyEndsWith g ".pdf" = true ∧
              c = camelotCall d g "all" := by
          intro s' hs' hc'
          rcases ih s' c hc' with h | ⟨g, hg, hgp, hgc⟩
          · rw [hs'] at h
            simp at h
            rcases h with h | h
            · exact Or.inl h
            · exact Or.inr ⟨f, by simp [hf, h]⟩
          · exact Or.inr ⟨g, by simp [hg], hgp, hgc⟩
        rcases ts with _ | ⟨t, ts'⟩
        · rw [runBatchAux_cons_zero engine d o hf hE] at hc
          exact step _ rfl hc
        · rw [runBatchAux_cons_tables engine d o hf hE (by simp)] at hc
          exact step _ rfl hc
    · rw [runBatchAux_cons_nonpdf engine d o (by simpa using hf)] at hc
      rcases ih s c hc with h | ⟨g, hg, hgp, hgc⟩
      · exact Or.inl h
      · exact Or.inr ⟨g, by simp [hg], hgp, hgc⟩

/-- Every name the loop adds to `no_tables_pdfs` is a `.pdf` listing entry for
which the engine returned zero tables. -/
theorem runBatchAux_noTables_mem (l : List String) (s : BState) :
    ∀ g ∈ (runBatchAux engine d o l s).1.noTables,
      g ∈ s.noTables ∨
        (g ∈ l ∧ pyEndsWith g ".pdf" = true ∧ engine (camelotCall d g "all") = .ok []) := by
  induction l generalizing s with
  | nil => intro g hg; exact Or.inl hg
  | cons f l ih =>
    intro g hg
    by_cases hf : pyEndsWith f ".pdf" = true
    · rcases hE : engine (camelotCall d f "all") with msg | ts
      · rw [runBatchAux_cons_error engine d o hf hE] at hg
        exact Or.inl hg
      · rcases ts with _ | ⟨t, ts'⟩
        · rw [runBatchAux_cons_zero engine d o hf hE] at hg
          rcases ih _ g hg with h | ⟨h1, h2, h3⟩
          · simp at h
            rcases h with h | h
            · exact Or.inl h
            · exact Or.inr ⟨by simp [h], by simp [h, hf], by simp [h, hE]⟩
          · exact Or.inr ⟨by simp [h1], h2, h3⟩
        · rw [runBatchAux_cons_tables engine d o hf hE (by simp)] at hg
          rcases ih _ g hg with h | ⟨h1, h2, h3⟩
          · exact Or.inl h
          · exact Or.inr ⟨by simp [h1], h2, h3⟩
    · rw [runBatchAux_cons_nonpdf engine d o (by simpa using hf)] at hg
      rcases ih s g hg with h | ⟨h1, h2, h3⟩
      · exact Or.inl h
      · exact Or.inr ⟨by simp [h1], h2, h3⟩

/-- Every CSV write the loop performs is a per-table write of some `.pdf`
listing entry. -/
theorem runBatchAux_writes_mem (l : List String) (s : BState) :
    ∀ w ∈ (runBatchAux engine d o l s).1.writes,
      w ∈ s.writes ∨
        ∃ f, f ∈ l ∧ pyEndsWith f ".pdf" = true ∧ w ∈ writesFor engine d o f := by
  induction l generalizing s with
  | nil => intro w hw; exact Or.inl hw
  | cons f l ih =>
    intro w hw
    by_cases hf : pyEndsWith f ".pdf" = true
    · rcases hE : engine (camelotCall d f "all") with msg | ts
      · rw [runBatchAux_cons_error engine d o hf hE] at hw
        exact Or.inl hw
      · rcases ts with _ | ⟨t, ts'⟩
        · rw [runBatchAux_cons_zero engine d o hf hE] at hw
          rcases ih _ w hw with h | ⟨g, h1, h2, h3⟩
          · exact Or.inl h
          · exact Or.inr ⟨g, by simp [h1], h2, h3⟩
        · rw [runBatchAux_cons_tables engine d o hf hE (by simp)] at hw
          rcases ih _ w hw with h | ⟨g, h1, h2, h3⟩
          · simp at h
            rcases h with h | h
            · exact Or.inl h
            · exact Or.inr ⟨f, by simp, hf, by simp [writesFor, hE, h]⟩
          · exact Or.inr ⟨g, by simp [h1], h2, h3⟩
    · rw [runBatchAux_cons_nonpdf engine d o (by simpa using hf)] at hw
      rcases ih s w hw with h | ⟨g, h1, h2, h3⟩
      · exact Or.inl h
      · exact Or.inr ⟨g, by simp [h1], h2, h3⟩

end StepLemmas

theorem string_eq_of_data_eq {a b : String} (h : a.data = b.data) : a = b := by
  cases a; cases b; exact congrArg String.mk h

/-- Joining distinct filenames onto the same directory gives distinct paths. -/
theorem pathJoin_right_inj {d a b : String} (h : pathJoin d a = pathJoin d b) : a = b := by
  have hd := congrArg String.data h
  simp only [pathJoin, String.data_append, List.append_assoc] at hd
  exact string_eq_of_data_eq (List.append_cancel_left (List.append_cancel_left hd))

/-- A per-table CSV name (which embeds the marker `_table_camelot_`) is never the
no-tables report name. -/
theorem perTable_name_ne_report (a b : String) :
    a ++ "_table_camelot_" ++ b ++ ".csv" ≠ "pdfs_with_no_tables.csv" := by
  intro h
  have hd := congrArg String.data h
  simp only [String.data_append, List.append_assoc] at hd
  have hm : 'm' ∈ a.data ++
      (['_', 't', 'a', 'b', 'l', 'e', '_', 'c', 'a', 'm', 'e', 'l', 'o', 't', '_'] ++
        (b.data ++ ['.', 'c', 's', 'v'])) :=
    List.mem_append_right _ (List.mem_append_left _ (by decide))
  rw [hd] at hm
  exact absurd hm (by decide)

theorem enumerateFrom_length (n : Nat) (l : List α) :
    (enumerateFrom n l).length = l.length := by
  induction l generalizing n with
  | nil => rfl
  | cons x xs ih => simp [enumerateFrom, ih]

theorem enumerateFrom_getElem (n : Nat) (l : List α) (i : Nat)
    (h : i < (enumerateFrom n l).length) (h2 : i < l.length) :
    (enumerateFrom n l).get ⟨i, h⟩ = (n + i, l.get ⟨i, h2⟩) := by
  induction l generalizing n i with
  | nil => exact absurd h2 (by simp)
  | cons x xs ih =>
    cases i with
    | zero => simp [enumerateFrom]
    | succ j =>
      have hj : j < (enumerateFrom (n + 1) xs).length := by
        simpa [enumerateFrom] using h
      have hj2 : j < xs.length := by simpa using h2
      simp only [enumerateFrom, List.get_eq_getElem, List.getElem_cons_succ]
      have := ih (n + 1) j hj hj2
      simp only [List.get_eq_getElem] at this
      rw [this]
      congr 1
      omega

theorem enumerateFrom_map_snd (n : Nat) (l : List α) :
    (enumerateFrom n l).map Prod.snd = l := by
  induction l generalizing n with
  | nil => rfl
  | cons x xs ih => simp [enumerateFrom, ih]

theorem perTableWrites_length (o rn : String) (ts : List Table) :
    (perTableWrites o rn ts).length = ts.length := by
  simp [perTableWrites, enumerateFrom_length]

theorem perTableWrites_get (o rn : String) (ts : List Table) (i : Nat)
    (h : i < (perTableWrites o rn ts).length) (h2 : i < ts.length) :
    (perTableWrites o rn ts).get ⟨i, h⟩ =
      (pathJoin o (rn ++ "_table_camelot_" ++ toString (i + 1) ++ ".csv"),
        (ts.get ⟨i, h2⟩).csv) := by
  have he : i < (enumerateFrom 1 ts).length := by
    rwa [← perTableWrites_length o rn ts, perTableWrites_length, ← enumerateFrom_length 1 ts] at h2
  simp only [perTableWrites, List.get_eq_getElem, List.getElem_map]
  have := enumerateFrom_getElem 1 ts i he h2
  simp only [List.get_eq_getElem] at this
  rw [this]
  simp [Nat.add_comm]

theorem perTableWrites_map_snd (o rn : String) (ts : List Table) :
    (perTableWrites o rn ts).map Prod.snd = ts.map Table.csv := by
  unfold perTableWrites
  rw [List.map_map]
  have : (Prod.snd ∘ fun pr : Nat × Table =>
      ((pathJoin o (rn ++ "_table_camelot_" ++ toString pr.1 ++ ".csv")), pr.2.csv)) =
      (Table.csv ∘ Prod.snd) := rfl
  rw [this, ← List.map_map, enumerateFrom_map_snd]

/-- Every per-table write name has the shape `<folder>/<stem>_table_camelot_<i>.csv`. -/
theorem perTableWrites_name_shape (o rn : String) (ts : List Table) :
    ∀ w ∈ perTableWrites o rn ts,
      ∃ i : Nat, w.1 = pathJoin o (rn ++ "_table_camelot_" ++ toString i ++ ".csv") := by
  intro w hw
  simp only [perTableWrites, List.mem_map] at hw
  obtain ⟨pr, _, hpr⟩ := hw
  exact ⟨pr.1, by rw [← hpr]⟩

/-- A filename needing no CSV quoting. -/
def plainCsvName (s : String) : Bool :=
  s.toList.all (fun c => !(c = ',' || c = '"' || c = '\n' || c = '\r'))

theorem csvCell_plain {s : String} (h : plainCsvName s = true) : csvCell s = s := by
  unfold csvCell
  rw [if_neg]
  intro hc
  simp only [plainCsvName, List.all_eq_true] at h
  simp only [List.any_eq_true] at hc
  obtain ⟨c, hcm, hcp⟩ := hc
  have := h c hcm
  rw [hcp] at this
  simp at this

/-- The report-writing step changes no engine calls. -/
theorem runBatch_calls_eq (engine : Engine) (d o : String) (l : List String) :
    (runBatch engine d o l).1.calls = (runBatchAux engine d o l initState).1.calls := by
  unfold runBatch
  rcases hr : runBatchAux engine d o l initState with ⟨s1, c⟩
  cases c <;> simp

/-- The report-writing step changes no `noTables` entries. -/
theorem runBatch_noTables_eq (engine : Engine) (d o : String) (l : List String) :
    (runBatch engine d o l).1.noTables = (runBatchAux engine d o l initState).1.noTables := by
  unfold runBatch
  rcases hr : runBatchAux engine d o l initState with ⟨s1, c⟩
  cases c <;> simp

section Claims

/-- C1: for a document for which the engine returns zero tables, the batch loop
adds the filename to `no_tables_pdfs`, performs no per-table CSV write for it
(the continuation state differs from the state after the preceding documents
only in `noTables` and `calls`), raises nothing, and continues with the
remaining listing entries exactly as it would have; the filename moreover ends
up in the final `no_tables_pdfs` list of the run. -/
theorem zero_tables_recorded_batch_continues (engine : Engine) (d o : String)
    (l1 l2 : List String) (f : String)
    (hf : pyEndsWith f ".pdf" = true)
    (hz : engine (camelotCall d f "all") = .ok [])
    (h1 : (runBatchAux engine d o l1 initState).2 = none) :
    runBatchAux engine d o (l1 ++ f :: l2) initState =
      runBatchAux engine d o l2
        { (runBatchAux engine d o l1 initState).1 with
            noTables := (runBatchAux engine d o l1 initState).1.noTables ++ [f],
            calls := (runBatchAux engine d o l1 initState).1.calls ++ [camelotCall d f "all"] } ∧
    f ∈ (runBatchAux engine d o (l1 ++ f :: l2) initState).1.noTables := by
  rcases hr : runBatchAux engine d o l1 initState with ⟨s1, c⟩
  rw [hr] at h1
  simp only at h1
  subst h1
  have heq : runBatchAux engine d o (l1 ++ f :: l2) initState =
      runBatchAux engine d o l2
        { s1 with noTables := s1.noTables ++ [f],
                  calls := s1.calls ++ [camelotCall d f "all"] } := by
    rw [runBatchAux_append, hr]
    simp only
    rw [runBatchAux_cons_zero engine d o hf hz]
  refine ⟨heq, ?_⟩
  rw [heq]
  obtain ⟨t, ht⟩ := runBatchAux_noTables_mono engine d o l2
    { s1 with noTables := s1.noTables ++ [f],
              calls := s1.calls ++ [camelotCall d f "all"] }
  rw [ht]
  simp

/-- Engine used in concrete instantiations of the zero-table scenario. -/
def zeroEngine : Engine := fun _ => .ok []

/-- Witness for C1 at the spec scenario document name. -/
theorem zero_tables_recorded_batch_continues_witness :
    (pyEndsWith "OncoKids_2022_S22-4649.pdf" ".pdf" = true ∧
      zeroEngine (camelotCall "pdfs" "OncoKids_2022_S22-4649.pdf" "all") = .ok [] ∧
      (runBatchAux zeroEngine "pdfs" "out" [] initState).2 = none) ∧
    "OncoKids_2022_S22-4649.pdf" ∈
      (runBatchAux zeroEngine "pdfs" "out"
        ([] ++ "OncoKids_2022_S22-4649.pdf" :: ["b.pdf"]) initState).1.noTables :=
  ⟨⟨by decide, rfl, rfl⟩,
    (zero_tables_recorded_batch_continues zeroEngine "pdfs" "out" [] ["b.pdf"]
      "OncoKids_2022_S22-4649.pdf" (by decide) rfl rfl).2⟩

/-- An engine that raises on `pdfs/a.pdf` and finds one table elsewhere. -/
def raisingEngine : Engine := fun c =>
  if c.filepath = "pdfs/a.pdf" then .error "camelot failure" else .ok [⟨"t"⟩]

/-- C2 is false on the code: `extract_tables_from_pdf` and the batch loop contain
no exception handler, so with two documents where the engine raises on the first,
the exception escapes the run (`some` outcome), the second document is never given
to the engine, and the failure is recorded nowhere (no writes, empty no-tables
list) — the batch does not continue. -/
theorem engine_error_not_caught_cex :
    (runBatch raisingEngine "pdfs" "out" ["a.pdf", "b.pdf"]).2 = some "camelot failure" ∧
    (¬ ∃ c ∈ (runBatch raisingEngine "pdfs" "out" ["a.pdf", "b.pdf"]).1.calls,
        c.filepath = pathJoin "pdfs" "b.pdf") ∧
    (runBatch raisingEngine "pdfs" "out" ["a.pdf", "b.pdf"]).1.noTables = [] ∧
    (runBatch raisingEngine "pdfs" "out" ["a.pdf", "b.pdf"]).1.writes = [] := by
  decide

/-- C2 amended: an engine exception on one document is NOT caught: it aborts the
batch at that document.  The run's outcome is the exception; the state is exactly
the state after the preceding documents plus the failing engine call — nothing
from the rest of the listing is processed, the failing document is recorded
nowhere, and the no-tables report is not written. -/
theorem engine_error_aborts_batch (engine : Engine) (d o : String)
    (l1 l2 : List String) (f msg : String)
    (hf : pyEndsWith f ".pdf" = true)
    (he : engine (camelotCall d f "all") = .error msg)
    (h1 : (runBatchAux engine d o l1 initState).2 = none) :
    runBatch engine d o (l1 ++ f :: l2) =
      ({ (runBatchAux engine d o l1 initState).1 with
          calls := (runBatchAux engine d o l1 initState).1.calls ++ [camelotCall d f "all"] },
        some msg) := by
  rcases hr : runBatchAux engine d o l1 initState with ⟨s1, c⟩
  rw [hr] at h1
  simp only at h1
  subst h1
  unfold runBatch
  rw [runBatchAux_append, hr]
  simp only
  rw [runBatchAux_cons_error engine d o hf he]

/-- Witness for the amended C2. -/
theorem engine_error_aborts_batch_witness :
    (pyEndsWith "a.pdf" ".pdf" = true ∧
      raisingEngine (camelotCall "pdfs" "a.pdf" "all") =
        Except.error "camelot failure" ∧
      (runBatchAux raisingEngine "pdfs" "out" [] initState).2 = none) ∧
    runBatch raisingEngine "pdfs" "out" ([] ++ "a.pdf" :: ["b.pdf"]) =
      ({ (runBatchAux raisingEngine "pdfs" "out" [] initState).1 with
          calls := (runBatchAux raisingEngine "pdfs" "out" [] initState).1.calls ++
            [camelotCall "pdfs" "a.pdf" "all"] },
        some "camelot failure") :=
  ⟨⟨by decide, rfl, rfl⟩,
    engine_error_aborts_batch raisingEngine "pdfs" "out" [] ["b.pdf"] "a.pdf"
      "camelot failure" (by decide) rfl rfl⟩

/-- Modelled from the spec: `src/table_utils.py` is imported by
`notebooks/Extract_all_tables_camelot.ipynb` but is absent from the repository
snapshot.  Its `extract_tables_from_pdf` is modelled from spec §4.3 ("The adapter
exposes a configuration surface with at least: {flavor: bordered|whitespace-delimited,
lineSensitivity: numeric tolerance for detecting ruling lines}") and from the
notebook's call site, which passes `flavor` and `line_scale` keyword arguments
per invocation; apart from the configurable settings it behaves like the
checkpoint implementation. -/
def tableUtilsExtract (engine : Engine) (pdf_dir pdf_file output_folder flavor : String)
    (line_scale : Nat) (pages : String) : EngineCall × Except String (List Write × Bool) :=
  match engine (EngineCall.mk (pathJoin pdf_dir pdf_file) pages flavor line_scale) with
  | .error e => (EngineCall.mk (pathJoin pdf_dir pdf_file) pages flavor line_scale, .error e)
  | .ok tables =>
    if tables.length = 0 then
      (EngineCall.mk (pathJoin pdf_dir pdf_file) pages flavor line_scale, .ok ([], false))
    else
      (EngineCall.mk (pathJoin pdf_dir pdf_file) pages flavor line_scale,
        .ok (perTableWrites output_folder (splitextStem pdf_file) tables, true))

/-- C3: the adapter's public interface takes a flavor and a line-sensitivity
argument on every invocation, and the engine call it makes uses exactly the
values the caller passed — so callers can vary both settings per call. -/
theorem adapter_exposes_flavor_and_line_scale (engine : Engine)
    (d f o flavor : String) (line_scale : Nat) (pg : String) :
    (tableUtilsExtract engine d f o flavor line_scale pg).1 =
      { filepath := pathJoin d f, pages := pg, flavor := flavor,
        line_scale := line_scale } := by
  unfold tableUtilsExtract
  split
  · rfl
  · split <;> rfl

/-- C5: when the engine returns a non-empty table sequence, the adapter performs
exactly one CSV write per table, and the i-th write (0-based i) is named
`<specimenId>_table_camelot_<i+1>.csv` under the output folder — specimenId being
`os.path.splitext(pdf_file)[0]`, the engine tag being `camelot`, the index being
the table's 1-based position — with the i-th table's serialization as content. -/
theorem per_table_csv_naming (engine : Engine) (d f o pg : String) (ts : List Table)
    (he : engine (camelotCall d f pg) = .ok ts) (hne : ts ≠ []) :
    (extract_tables_from_pdf engine d f o pg).2 =
      .ok (perTableWrites o (splitextStem f) ts, true) ∧
    (perTableWrites o (splitextStem f) ts).length = ts.length ∧
    ∀ i (h : i < (perTableWrites o (splitextStem f) ts).length) (h2 : i < ts.length),
      (perTableWrites o (splitextStem f) ts).get ⟨i, h⟩ =
        (pathJoin o (splitextStem f ++ "_table_camelot_" ++ toString (i + 1) ++ ".csv"),
          (ts.get ⟨i, h2⟩).csv) := by
  refine ⟨?_, perTableWrites_length _ _ _, fun i h h2 => perTableWrites_get _ _ _ i h h2⟩
  simp [extract_tables_from_pdf, he, hne, List.length_eq_zero]

/-- An engine returning two tables, for concrete instantiations. -/
def twoTableEngine : Engine := fun _ => .ok [⟨"T1"⟩, ⟨"T2"⟩]

/-- Witness for C5 on a two-table document. -/
theorem per_table_csv_naming_witness :
    (twoTableEngine (camelotCall "pdfs" "r.pdf" "all") = .ok [⟨"T1"⟩, ⟨"T2"⟩] ∧
      ([⟨"T1"⟩, ⟨"T2"⟩] : List Table) ≠ []) ∧
    (extract_tables_from_pdf twoTableEngine "pdfs" "r.pdf" "out" "all").2 =
      .ok (perTableWrites "out" (splitextStem "r.pdf") [⟨"T1"⟩, ⟨"T2"⟩], true) :=
  ⟨⟨rfl, by decide⟩,
    (per_table_csv_naming twoTableEngine "pdfs" "r.pdf" "out" "all" [⟨"T1"⟩, ⟨"T2"⟩]
      rfl (by decide)).1⟩

/-- C7: a default invocation of the adapter calls the engine in lattice
(bordered-table) mode on all pages — every engine call the batch makes carries
`flavor = "lattice"` and `pages = "all"` — and the per-table outputs preserve the
engine's table order (the write contents are exactly the engine's table
serializations in sequence). -/
theorem default_invocation_lattice_all_pages (engine : Engine) (d f o : String)
    (listing : List String) (ts : List Table)
    (he : engine (camelotCall d f "all") = .ok ts) (hne : ts ≠ []) :
    (extract_tables_from_pdf engine d f o "all").1 =
      { filepath := pathJoin d f, pages := "all", flavor := "lattice", line_scale := 60 } ∧
    (∀ c ∈ (runBatch engine d o listing).1.calls, c.flavor = "lattice" ∧ c.pages = "all") ∧
    (extract_tables_from_pdf engine d f o "all").2 =
      .ok (perTableWrites o (splitextStem f) ts, true) ∧
    (perTableWrites o (splitextStem f) ts).map Prod.snd = ts.map Table.csv := by
  refine ⟨?_, ?_, ?_, perTableWrites_map_snd o (splitextStem f) ts⟩
  · have h1 : (extract_tables_from_pdf engine d f o "all").1 = camelotCall d f "all" := by
      simp [extract_tables_from_pdf, he, hne]
    rw [h1]
    rfl
  · intro c hc
    rw [runBatch_calls_eq] at hc
    rcases runBatchAux_calls_mem engine d o listing initState c hc with h | ⟨g, _, _, hgc⟩
    · exact absurd h (by simp [initState])
    · subst hgc
      exact ⟨rfl, rfl⟩
  · simp [extract_tables_from_pdf, he, hne, List.length_eq_zero]

/-- Witness for C7. -/
theorem default_invocation_lattice_all_pages_witness :
    (twoTableEngine (camelotCall "pdfs" "r.pdf" "all") = .ok [⟨"T1"⟩, ⟨"T2"⟩] ∧
      ([⟨"T1"⟩, ⟨"T2"⟩] : List Table) ≠ []) ∧
    (extract_tables_from_pdf twoTableEngine "pdfs" "r.pdf" "out" "all").1 =
      { filepath := pathJoin "pdfs" "r.pdf", pages := "all", flavor := "lattice",
        line_scale := 60 } :=
  ⟨⟨rfl, by decide⟩,
    (default_invocation_lattice_all_pages twoTableEngine "pdfs" "r.pdf" "out" ["r.pdf"]
      [⟨"T1"⟩, ⟨"T2"⟩] rfl (by decide)).1⟩

/-- C4: a completed run (with filenames needing no CSV quoting) writes the file
`pdfs_with_no_tables.csv` in the output folder with exactly the header line
`PDF_Filename` followed by one line per document for which the engine returned
zero tables, in listing order; and the run's `no_tables_pdfs` list is exactly
those documents. -/
theorem no_tables_report_format (engine : Engine) (d o : String) (listing : List String)
    (hok : (runBatch engine d o listing).2 = none)
    (hplain : ∀ f ∈ listing, plainCsvName f = true) :
    (pathJoin o noTablesName,
        "PDF_Filename" ++ "\n" ++
          String.join ((zeroTableDocs engine d listing).map (fun f => f ++ "\n")))
      ∈ (runBatch engine d o listing).1.writes ∧
    (runBatch engine d o listing).1.noTables = zeroTableDocs engine d listing := by
  rcases hr : runBatchAux engine d o listing initState with ⟨s1, c⟩
  have hc : c = none := by
    unfold runBatch at hok
    rw [hr] at hok
    cases c
    · rfl
    · simp at hok
  subst hc
  have hs1 : s1 =
      { writes := perTableAll engine d o listing,
        noTables := zeroTableDocs engine d listing,
        calls := pdfCalls d listing } := by
    have h := runBatchAux_ok_spec engine d o listing initState (by rw [hr])
    rw [hr] at h
    simpa [initState] using h
  have hcontent : noTablesCsv (zeroTableDocs engine d listing) =
      "PDF_Filename" ++ "\n" ++
        String.join ((zeroTableDocs engine d listing).map (fun f => f ++ "\n")) := by
    unfold noTablesCsv
    congr 2
    apply List.map_congr_left
    intro f hf
    rw [csvCell_plain (hplain f (List.mem_of_mem_filter hf))]
  unfold runBatch
  rw [hr]
  simp only
  constructor
  · rw [hs1]
    simp only
    rw [← hcontent]
    simp
  · rw [hs1]

/-- Witness for C4. -/
theorem no_tables_report_format_witness :
    ((runBatch zeroEngine "pdfs" "out" ["a.pdf"]).2 = none ∧
      (∀ f ∈ ["a.pdf"], plainCsvName f = true)) ∧
    (runBatch zeroEngine "pdfs" "out" ["a.pdf"]).1.noTables =
      zeroTableDocs zeroEngine "pdfs" ["a.pdf"] :=
  ⟨⟨rfl, by decide⟩,
    (no_tables_report_format zeroEngine "pdfs" "out" ["a.pdf"] rfl (by decide)).2⟩

/-- C6 is false as stated: the outputs are not a function of the input
directory's contents.  Two listings of the very same set of files (the same
unchanged directory observed through `os.listdir` in two different orders —
`os.listdir` guarantees no order) produce different `no_tables_pdfs` lists and
different written bytes for `pdfs_with_no_tables.csv`, because the code never
sorts the listing and the report rows follow listing order. -/
theorem batch_not_function_of_contents_cex :
    (["a.pdf", "b.pdf"] : List String).Perm ["b.pdf", "a.pdf"] ∧
    (runBatch zeroEngine "pdfs" "out" ["a.pdf", "b.pdf"]).1.noTables ≠
      (runBatch zeroEngine "pdfs" "out" ["b.pdf", "a.pdf"]).1.noTables ∧
    (runBatch zeroEngine "pdfs" "out" ["a.pdf", "b.pdf"]).1.writes ≠
      (runBatch zeroEngine "pdfs" "out" ["b.pdf", "a.pdf"]).1.writes := by
  refine ⟨List.Perm.swap _ _ _, ?_, ?_⟩ <;> decide

/-- C6 amended: the pipeline is a deterministic function of the directory
LISTING (its contents together with their order): the run is a pure function of
the listing, and for completed runs the per-table CSV writes and the no-table
rows are permutation-invariant in the listing — so the SET of outputs depends
only on the directory contents, while the byte content of
`pdfs_with_no_tables.csv` additionally depends on listing order. -/
theorem batch_outputs_listing_perm (engine : Engine) (d o : String)
    (l1 l2 : List String)
    (h1 : (runBatchAux engine d o l1 initState).2 = none)
    (h2 : (runBatchAux engine d o l2 initState).2 = none)
    (hperm : l1.Perm l2) :
    (runBatchAux engine d o l1 initState).1.writes.Perm
      (runBatchAux engine d o l2 initState).1.writes ∧
    (runBatchAux engine d o l1 initState).1.noTables.Perm
      (runBatchAux engine d o l2 initState).1.noTables := by
  rw [runBatchAux_ok_spec engine d o l1 initState h1,
    runBatchAux_ok_spec engine d o l2 initState h2]
  simp only [initState, List.nil_append]
  exact ⟨hperm.flatMap_right _, hperm.filter _⟩

/-- Witness for the amended C6. -/
theorem batch_outputs_listing_perm_witness :
    ((runBatchAux zeroEngine "pdfs" "out" ["a.pdf", "b.pdf"] initState).2 = none ∧
      (runBatchAux zeroEngine "pdfs" "out" ["b.pdf", "a.pdf"] initState).2 = none ∧
      (["a.pdf", "b.pdf"] : List String).Perm ["b.pdf", "a.pdf"]) ∧
    (runBatchAux zeroEngine "pdfs" "out" ["a.pdf", "b.pdf"] initState).1.noTables.Perm
      (runBatchAux zeroEngine "pdfs" "out" ["b.pdf", "a.pdf"] initState).1.noTables :=
  ⟨⟨rfl, rfl, List.Perm.swap _ _ _⟩,
    (batch_outputs_listing_perm zeroEngine "pdfs" "out" ["a.pdf", "b.pdf"]
      ["b.pdf", "a.pdf"] rfl rfl (List.Perm.swap _ _ _)).2⟩

/-- C9: a listing entry not ending in `.pdf` is ignored entirely: no engine call
of the run carries its path, it is never in the no-tables list, every CSV write
of the loop stems from some `.pdf` entry, and consequently every filename in the
no-tables list ends in `.pdf`. -/
theorem non_pdf_entries_ignored (engine : Engine) (d o : String)
    (listing : List String) (entry : String)
    (hmem : entry ∈ listing) (hnp : pyEndsWith entry ".pdf" = false) :
    (∀ c ∈ (runBatch engine d o listing).1.calls, c.filepath ≠ pathJoin d entry) ∧
    entry ∉ (runBatch engine d o listing).1.noTables ∧
    (∀ w ∈ (runBatchAux engine d o listing initState).1.writes,
      ∃ f, f ∈ listing ∧ pyEndsWith f ".pdf" = true ∧ w ∈ writesFor engine d o f) ∧
    (∀ g ∈ (runBatch engine d o listing).1.noTables, pyEndsWith g ".pdf" = true) := by
  refine ⟨?_, ?_, ?_, ?_⟩
  · intro c hc hceq
    rw [runBatch_calls_eq] at hc
    rcases runBatchAux_calls_mem engine d o listing initState c hc with h | ⟨f, _, hfp, hfc⟩
    · simp [initState] at h
    · subst hfc
      have hfe : f = entry := pathJoin_right_inj hceq
      subst hfe
      rw [hfp] at hnp
      simp at hnp
  · intro hg
    rw [runBatch_noTables_eq] at hg
    rcases runBatchAux_noTables_mem engine d o listing initState entry hg with h | ⟨_, h2, _⟩
    · simp [initState] at h
    · rw [h2] at hnp
      simp at hnp
  · intro w hw
    rcases runBatchAux_writes_mem engine d o listing initState w hw with h | ⟨f, hf1, hf2, hf3⟩
    · simp [initState] at h
    · exact ⟨f, hf1, hf2, hf3⟩
  · intro g hg
    rw [runBatch_noTables_eq] at hg
    rcases runBatchAux_noTables_mem engine d o listing initState g hg with h | ⟨_, h2, _⟩
    · simp [initState] at h
    · exact h2

/-- Witness for C9. -/
theorem non_pdf_entries_ignored_witness :
    ("notes.txt" ∈ ["a.pdf", "notes.txt"] ∧
      pyEndsWith "notes.txt" ".pdf" = false) ∧
    "notes.txt" ∉ (runBatch zeroEngine "pdfs" "out" ["a.pdf", "notes.txt"]).1.noTables :=
  ⟨⟨by decide, by decide⟩,
    (non_pdf_entries_ignored zeroEngine "pdfs" "out" ["a.pdf", "notes.txt"] "notes.txt"
      (by decide) (by decide)).2.1⟩

/-- No per-table CSV write of a completed batch uses the report's path. -/
theorem perTableAll_not_report (engine : Engine) (d o : String) (l : List String)
    (w : Write) (hw : w ∈ perTableAll engine d o l) :
    ¬ w.1 = pathJoin o noTablesName := by
  intro heq
  simp only [perTableAll, List.mem_flatMap] at hw
  obtain ⟨f, _, hwf⟩ := hw
  split at hwf
  · unfold writesFor at hwf
    split at hwf
    · simp at hwf
    · split at hwf
      · simp at hwf
      · obtain ⟨i, hi⟩ := perTableWrites_name_shape o (splitextStem f) _ w hwf
        rw [hi] at heq
        have hinj := pathJoin_right_inj heq
        exact perTable_name_ne_report (splitextStem f) (toString i)
          (by simpa [noTablesName] using hinj)
  · simp at hwf

/-- C10: a completed batch run writes the no-tables report exactly once, always
at `<output_folder>/pdfs_with_no_tables.csv`; and when no document yielded zero
tables the report is still written, containing only the header row. -/
theorem no_tables_report_written_once (engine : Engine) (d o : String)
    (listing : List String)
    (hok : (runBatch engine d o listing).2 = none) :
    ((runBatch engine d o listing).1.writes.filter
        (fun w => w.1 = pathJoin o noTablesName)).length = 1 ∧
    (zeroTableDocs engine d listing = [] →
      (pathJoin o noTablesName, "PDF_Filename" ++ "\n")
        ∈ (runBatch engine d o listing).1.writes) := by
  rcases hr : runBatchAux engine d o listing initState with ⟨s1, c⟩
  have hc : c = none := by
    unfold runBatch at hok
    rw [hr] at hok
    cases c
    · rfl
    · simp at hok
  subst hc
  have hs1 : s1 =
      { writes := perTableAll engine d o listing,
        noTables := zeroTableDocs engine d listing,
        calls := pdfCalls d listing } := by
    have h := runBatchAux_ok_spec engine d o listing initState (by rw [hr])
    rw [hr] at h
    simpa [initState] using h
  unfold runBatch
  rw [hr]
  simp only
  constructor
  · rw [List.filter_append]
    have hnone : s1.writes.filter (fun w => w.1 = pathJoin o noTablesName) = [] := by
      rw [List.filter_eq_nil_iff]
      intro w hw
      rw [hs1] at hw
      simp only [decide_eq_true_eq]
      exact perTableAll_not_report engine d o listing w hw
    rw [hnone]
    simp
  · intro hzero
    have hnt : s1.noTables = [] := by rw [hs1]; exact hzero
    rw [hnt]
    have : noTablesCsv [] = "PDF_Filename" ++ "\n" := by decide
    rw [this]
    simp

/-- Witness for C10 on a run where every document yields tables. -/
theorem no_tables_report_written_once_witness :
    (runBatch twoTableEngine "pdfs" "out" ["a.pdf"]).2 = none ∧
    ((runBatch twoTableEngine "pdfs" "out" ["a.pdf"]).1.writes.filter
        (fun w => w.1 = pathJoin "out" noTablesName)).length = 1 :=
  ⟨rfl, (no_tables_report_written_once twoTableEngine "pdfs" "out" ["a.pdf"] rfl).1⟩

/-- A per-specimen page range produced by segmentation. -/
structure SpecimenBoundary where
  specimenId : String
  startPage : Nat
  endPage : Nat
deriving DecidableEq, Repr

/-- Modelled from the spec: the Pattern Detector
(`Split_OncoKids_by_keyword_page_detect.ipynb` / `src/pdf_utils.py`) is absent
from the repository snapshot.  Following §4.1, a document is given by its pages'
optional specimen-start markers, and the detector returns the ordered
(page index, specimen id) pairs of pages carrying a start marker; `n` is the
index of the first page of the suffix being scanned. -/
def startMarkersFrom (n : Nat) : List (Option String) → List (Nat × String)
  | [] => []
  | none :: rest => startMarkersFrom (n + 1) rest
  | some sid :: rest => (n, sid) :: startMarkersFrom (n + 1) rest

/-- Modelled from the spec (§4.1): each boundary runs from its start marker's
page to the page before the next start marker; the last boundary runs to the end
of the document (`pageCount - 1`). -/
def mkBoundaries (pageCount : Nat) : List (Nat × String) → List SpecimenBoundary
  | [] => []
  | (i, sid) :: rest =>
    { specimenId := sid, startPage := i,
      endPage := match rest with
        | [] => pageCount - 1
        | (j, _) :: _ => j - 1 } :: mkBoundaries pageCount rest

/-- Modelled from the spec: segmentation of a document (given by its pages'
optional start markers) into specimen boundaries. -/
def segmentBoundaries (doc : List (Option String)) : List SpecimenBoundary :=
  mkBoundaries doc.length (startMarkersFrom 0 doc)

theorem startMarkersFrom_mem (n : Nat) (doc : List (Option String)) :
    ∀ p ∈ startMarkersFrom n doc, n ≤ p.1 ∧ p.1 < n + doc.length := by
  induction doc generalizing n with
  | nil => simp [startMarkersFrom]
  | cons pg rest ih =>
    cases pg with
    | none =>
      intro p hp
      simp only [startMarkersFrom] at hp
      have h := ih (n + 1) p hp
      simp only [List.length_cons]
      omega
    | some sid =>
      intro p hp
      simp only [startMarkersFrom] at hp
      simp only [List.length_cons]
      rcases List.mem_cons.mp hp with h | h
      · subst h
        simp only
        omega
      · have h2 := ih (n + 1) p h
        omega

theorem startMarkersFrom_pairwise (n : Nat) (doc : List (Option String)) :
    (startMarkersFrom n doc).Pairwise (fun a b => a.1 < b.1) := by
  induction doc generalizing n with
  | nil => simp [startMarkersFrom]
  | cons pg rest ih =>
    cases pg with
    | none => simpa [startMarkersFrom] using ih (n + 1)
    | some sid =>
      simp only [startMarkersFrom, List.pairwise_cons]
      refine ⟨?_, ih (n + 1)⟩
      intro p hp
      have h := (startMarkersFrom_mem (n + 1) rest p hp).1
      show n < p.1
      omega

/-- In a list sorted by strictly increasing first component, the head's first
component is minimal. -/
theorem sorted_head_min {j : Nat} {s : String} {ms : List (Nat × String)}
    (hs : ((j, s) :: ms).Pairwise (fun a b => a.1 < b.1)) :
    ∀ q ∈ (j, s) :: ms, j ≤ q.1 := by
  intro q hq
  rcases List.mem_cons.mp hq with h | h
  · subst h
    exact Nat.le_refl _
  · exact Nat.le_of_lt ((List.pairwise_cons.mp hs).1 q h)

theorem mkBoundaries_map_start (pc : Nat) (ms : List (Nat × String)) :
    (mkBoundaries pc ms).map (fun b => b.startPage) = ms.map Prod.fst := by
  induction ms with
  | nil => rfl
  | cons p rest ih =>
    rcases p with ⟨i, sid⟩
    simp [mkBoundaries, ih]

theorem mkBoundaries_start_le_end (pc : Nat) (ms : List (Nat × String))
    (hs : ms.Pairwise (fun a b => a.1 < b.1)) (hb : ∀ p ∈ ms, p.1 < pc) :
    ∀ b ∈ mkBoundaries pc ms, b.startPage ≤ b.endPage := by
  induction ms with
  | nil => simp [mkBoundaries]
  | cons p rest ih =>
    rcases p with ⟨i, sid⟩
    intro b hb2
    simp only [mkBoundaries] at hb2
    rcases List.mem_cons.mp hb2 with h | h
    · subst h
      simp only
      cases rest with
      | nil =>
        have : i < pc := hb (i, sid) (by simp)
        simp only
        omega
      | cons q rest2 =>
        rcases q with ⟨j, sid2⟩
        have : i < j := (List.pairwise_cons.mp hs).1 (j, sid2) (by simp)
        simp only
        omega
    · exact ih (List.Pairwise.sublist (List.sublist_cons_self _ _) hs)
        (fun q hq => hb q (by simp [hq])) b h

theorem mkBoundaries_pairwise (pc : Nat) (ms : List (Nat × String))
    (hs : ms.Pairwise (fun a b => a.1 < b.1)) :
    (mkBoundaries pc ms).Pairwise
      (fun a b => a.endPage < b.startPage ∧ a.startPage < b.startPage) := by
  induction ms with
  | nil => simp [mkBoundaries]
  | cons p rest ih =>
    rcases p with ⟨i, sid⟩
    simp only [mkBoundaries, List.pairwise_cons]
    have htail : rest.Pairwise (fun a b => a.1 < b.1) :=
      List.Pairwise.sublist (List.sublist_cons_self _ _) hs
    refine ⟨?_, ih htail⟩
    intro b hbm
    have hstart : b.startPage ∈ rest.map Prod.fst := by
      rw [← mkBoundaries_map_start pc rest]
      exact List.mem_map_of_mem _ hbm
    obtain ⟨q, hq, hqeq⟩ := List.mem_map.mp hstart
    have hiq : i < q.1 := (List.pairwise_cons.mp hs).1 q hq
    cases rest with
    | nil => exact absurd hq (by simp)
    | cons r rest2 =>
      rcases r with ⟨j, sid2⟩
      have hjq : j ≤ q.1 := sorted_head_min htail q hq
      have hij : i < j := (List.pairwise_cons.mp hs).1 (j, sid2) (by simp)
      constructor
      · show j - 1 < b.startPage
        omega
      · show i < b.startPage
        omega

/-- With `headStart` as the first marker's page (or `pc` when there is none),
the boundary lengths sum to at most `pc - headStart`. -/
def headStart (pc : Nat) : List (Nat × String) → Nat
  | [] => pc
  | (i, _) :: _ => i

theorem mkBoundaries_sum_le (pc : Nat) (ms : List (Nat × String))
    (hs : ms.Pairwise (fun a b => a.1 < b.1)) (hb : ∀ p ∈ ms, p.1 < pc) :
    ((mkBoundaries pc ms).map (fun b => b.endPage - b.startPage + 1)).sum +
      headStart pc ms ≤ pc := by
  induction ms with
  | nil => simp [mkBoundaries, headStart]
  | cons p rest ih =>
    rcases p with ⟨i, sid⟩
    have htail : rest.Pairwise (fun a b => a.1 < b.1) :=
      List.Pairwise.sublist (List.sublist_cons_self _ _) hs
    have hbtail : ∀ q ∈ rest, q.1 < pc := fun q hq => hb q (by simp [hq])
    have hrec := ih htail hbtail
    cases rest with
    | nil =>
      have hi : i < pc := hb (i, sid) (by simp)
      simp only [mkBoundaries, List.map_cons, List.map_nil, List.sum_cons,
        List.sum_nil, headStart]
      omega
    | cons r rest2 =>
      rcases r with ⟨j, sid2⟩
      have hij : i < j := (List.pairwise_cons.mp hs).1 (j, sid2) (by simp)
      simp only [mkBoundaries, List.map_cons, List.sum_cons, headStart] at hrec ⊢
      omega

/-- C8: for every document, the segmentation boundaries are pairwise
non-overlapping (each ends strictly before the next starts), monotonically
increasing in page index, well-formed (startPage ≤ endPage), and their page
counts sum to at most the document's page count. -/
theorem segmentation_boundaries_invariant (doc : List (Option String)) :
    (segmentBoundaries doc).Pairwise
        (fun a b => a.endPage < b.startPage ∧ a.startPage < b.startPage) ∧
    (∀ b ∈ segmentBoundaries doc, b.startPage ≤ b.endPage) ∧
    ((segmentBoundaries doc).map (fun b => b.endPage - b.startPage + 1)).sum ≤
      doc.length := by
  have hs := startMarkersFrom_pairwise 0 doc
  have hb : ∀ p ∈ startMarkersFrom 0 doc, p.1 < doc.length := by
    intro p hp
    have h := startMarkersFrom_mem 0 doc p hp
    omega
  refine ⟨mkBoundaries_pairwise _ _ hs, mkBoundaries_start_le_end _ _ hs hb, ?_⟩
  have h := mkBoundaries_sum_le doc.length (startMarkersFrom 0 doc) hs hb
  unfold segmentBoundaries
  omega

end Claims

end GeneReport
